import Mathlib

/-!
Verification of the Proof-of-History ledger core against its specification.

The development shallowly embeds the Rust sources:
  * `ledger/src/entry.rs`   (namespace `Ledger`): entry construction and
    verification, tick hash-count auditing;
  * `src/log.rs`            (namespace `PohLog`): the early log module with its
    own entry type, parallel and serial slice verifiers;
  * `src/accountant.rs`     (namespace `Acct`): balances, pending conditional
    plans, replay protection and the timestamp clock;
  * `src/erasure.rs`        (namespace `Erasure`): the erasure-coded recovery
    window.

External collaborators of those files (the SHA-256 primitive, the Merkle tree
of transaction signatures, ed25519 signature checks, the jerasure codec, blob
buffers) are not part of the sources; they enter the embedding as function
parameters or opaque fields, so every theorem below holds for all of their
implementations unless it instantiates them concretely.
-/

namespace Ledger

-- Transactions are opaque to the entry layer: only the Merkle mixin
-- function `htx` below ever inspects them.  Hashes are opaque 32-byte
-- values; we only need decidable equality on them.
variable {Tx : Type} {H : Type} [DecidableEq H]

-- `sha` is the SHA-256 step `hash(h)` driven by `Poh::hash`/`Poh::tick`,
-- `mix` is the mixin step `hashv([h, mixin])` of `Poh::record`, and `htx`
-- is `hash_transactions` (the Merkle root of the transaction signatures,
-- computed by the external `solana_merkle_tree` crate).  All three are
-- external primitives, so the embedding abstracts over them.
variable (sha : H → H) (mix : H → H → H) (htx : List Tx → H)

/-- An `Entry` of `ledger/src/entry.rs`: the count of sequential hashes since
the previous entry, the resulting chain digest, and the transactions bound to
that point of the hash stream. -/
structure Entry (H Tx : Type) where
  num_hashes : Nat
  hash : H
  transactions : List Tx

/-- The function `next_hash` of `ledger/src/entry.rs` (lines 137-149): with no
work and no transactions the previous hash is returned unchanged; otherwise
the previous hash is advanced `num_hashes - 1` times (saturating), and the
final step is either one more plain hash (tick) or a mixin of the Merkle root
of the transactions. The `Poh` helper it drives lives outside the sources;
its `hash`, `tick` and `record` steps are the `sha`/`mix` parameters. -/
def next_hash (start_hash : H) (num_hashes : Nat) (transactions : List Tx) : H :=
  if num_hashes = 0 ∧ transactions.isEmpty then
    start_hash
  else
    let c := sha^[num_hashes - 1] start_hash
    if transactions.isEmpty then sha c else mix c (htx transactions)

/-- The constructor `Entry::new` (lines 64-77): a transaction-bearing request
for zero hashes is silently bumped to one hash, then the chain digest is
computed by `next_hash`. -/
def Entry.new (prev_hash : H) (num_hashes : Nat) (transactions : List Tx) :
    Entry H Tx :=
  let n := if num_hashes = 0 ∧ ¬transactions.isEmpty then 1 else num_hashes
  { num_hashes := n
    hash := next_hash sha mix htx prev_hash n transactions
    transactions := transactions }

/-- The method `Entry::verify` (lines 102-112): recompute the expected digest
from `start_hash` and compare. -/
def Entry.verify (e : Entry H Tx) (start_hash : H) : Bool :=
  decide (e.hash = next_hash sha mix htx start_hash e.num_hashes e.transactions)

/-- The predicate `Entry::is_tick` (lines 114-116). -/
def Entry.is_tick (e : Entry H Tx) : Bool :=
  e.transactions.isEmpty

/-- The CPU slice verifier `EntrySlice::verify_cpu` (lines 220-255): zip a
genesis entry holding the anchor and the slice with the slice itself, and
check every entry against its predecessor's hash. The rayon parallel
iteration is modelled as iteration over the zipped list. -/
def verify_cpu (entries : List (Entry H Tx)) (start_hash : H) : Bool :=
  (List.zip ({ num_hashes := 0, hash := start_hash, transactions := [] } :: entries)
      entries).all
    fun p => Entry.verify sha mix htx p.2 p.1.hash

/-- The function `next_entry` (lines 380-387): asserts that a transaction
bearing entry budgets at least one hash; the panic of the violated assertion
is modelled as `none`. -/
def next_entry (prev_hash : H) (num_hashes : Nat) (transactions : List Tx) :
    Option (Entry H Tx) :=
  if 0 < num_hashes ∨ transactions.isEmpty then
    some { num_hashes := num_hashes
           hash := next_hash sha mix htx prev_hash num_hashes transactions
           transactions := transactions }
  else
    none

/-- The loop body of `EntrySlice::verify_tick_hash_count` (lines 340-355):
accumulate each entry's hash count, demand the accumulated count equal
`hashes_per_tick` at every tick, and after the slice demand a partial tick.
Returns the verdict together with the carry-out counter. -/
def tick_hash_count_go :
    List (Entry H Tx) → Nat → Nat → Bool × Nat
  | [], c, hashes_per_tick => (decide (c < hashes_per_tick), c)
  | e :: rest, c, hashes_per_tick =>
    let c' := c + e.num_hashes
    if e.transactions.isEmpty then
      if c' ≠ hashes_per_tick then (false, c')
      else tick_hash_count_go rest 0 hashes_per_tick
    else
      tick_hash_count_go rest c' hashes_per_tick

/-- The method `EntrySlice::verify_tick_hash_count` (lines 334-356): when
`hashes_per_tick` is zero the cadence audit is disabled and the carry is left
untouched; otherwise the slice is folded by `tick_hash_count_go`. -/
def verify_tick_hash_count (entries : List (Entry H Tx)) (tick_hash_count : Nat)
    (hashes_per_tick : Nat) : Bool × Nat :=
  if hashes_per_tick = 0 then (true, tick_hash_count)
  else tick_hash_count_go entries tick_hash_count hashes_per_tick

end Ledger

/-- C1: an entry freshly built by `Entry::new` verifies against the previous
hash it was built from, and the single-entry slice passes the slice verifier
against that anchor; this holds for every hash primitive, every previous
hash, every requested hash count and every transaction list. -/
theorem C1_entry_new_verifies {H Tx : Type} [DecidableEq H]
    (sha : H → H) (mix : H → H → H) (htx : List Tx → H)
    (prev_hash : H) (num_hashes : Nat) (transactions : List Tx) :
    Ledger.Entry.verify sha mix htx
        (Ledger.Entry.new sha mix htx prev_hash num_hashes transactions)
        prev_hash = true ∧
    Ledger.verify_cpu sha mix htx
        [Ledger.Entry.new sha mix htx prev_hash num_hashes transactions]
        prev_hash = true := by
  constructor
  · simp [Ledger.Entry.new, Ledger.Entry.verify]
  · simp [Ledger.verify_cpu, Ledger.Entry.new, Ledger.Entry.verify]

/-- C5 counterexample: `Entry::new` called with `num_hashes_requested = 0` and
a non-empty transaction list does not fail; at the concrete input
(`prev_hash = 0`, one transaction `5`, successor hashing) it returns a
well-formed entry whose hash count was silently bumped to 1 and which even
verifies against the previous hash, contradicting the claim that entry
construction fails as a precondition violation rather than returning an
entry. -/
theorem C5_counterexample :
    (Ledger.Entry.new Nat.succ (fun a b => a + b) List.length 0 0 [5]).num_hashes
        = 1 ∧
    (Ledger.Entry.new Nat.succ (fun a b => a + b) List.length 0 0
        [5]).transactions = [5] ∧
    Ledger.Entry.verify Nat.succ (fun a b => a + b) List.length
        (Ledger.Entry.new Nat.succ (fun a b => a + b) List.length 0 0 [5]) 0
        = true := by
  refine ⟨rfl, rfl, ?_⟩
  simp [Ledger.Entry.new, Ledger.Entry.verify]

/-- C5 (amended): with `num_hashes_requested = 0` and non-empty transactions,
only `next_entry` fails its precondition assertion (modelled as `none`);
`Entry::new` does not fail but instead coerces the hash count to 1 and
returns that entry. -/
theorem C5_next_entry_asserts {H Tx : Type} [DecidableEq H]
    (sha : H → H) (mix : H → H → H) (htx : List Tx → H)
    (prev_hash : H) (transactions : List Tx) (hne : transactions ≠ []) :
    Ledger.next_entry sha mix htx prev_hash 0 transactions = none ∧
    (Ledger.Entry.new sha mix htx prev_hash 0 transactions).num_hashes = 1 := by
  constructor
  · simp [Ledger.next_entry, hne]
  · simp [Ledger.Entry.new, hne]

/-- C5 witness: the amended statement at the concrete input of the
counterexample. -/
theorem C5_witness :
    Ledger.next_entry Nat.succ (fun a b => a + b) List.length 0 0 [5] = none ∧
    (Ledger.Entry.new Nat.succ (fun a b => a + b) List.length 0 0 [5]).num_hashes
        = 1 :=
  C5_next_entry_asserts Nat.succ (fun a b => a + b) List.length 0 [5]
    (by decide)

/-- C6: the tick hash-count auditor behaves exactly as specified: with
`hashes_per_tick = 0` it passes and leaves the carry untouched; with a
positive cadence it adds each entry's `num_hashes` to the carry in order,
returns `false` at the first tick whose accumulated count differs from
`hashes_per_tick` (leaving that count as the carry), resets the carry to zero
at each tick whose count matches, and after the whole slice succeeds exactly
when the remaining carry is below `hashes_per_tick`. -/
theorem C6_verify_tick_hash_count_spec {H Tx : Type}
    (entries : List (Ledger.Entry H Tx)) (c hashes_per_tick : Nat)
    (e : Ledger.Entry H Tx) :
    (Ledger.verify_tick_hash_count entries c 0 = (true, c)) ∧
    (0 < hashes_per_tick →
      Ledger.verify_tick_hash_count ([] : List (Ledger.Entry H Tx)) c
          hashes_per_tick = (decide (c < hashes_per_tick), c)) ∧
    (0 < hashes_per_tick → Ledger.Entry.is_tick e = true →
      c + e.num_hashes ≠ hashes_per_tick →
      Ledger.verify_tick_hash_count (e :: entries) c hashes_per_tick
        = (false, c + e.num_hashes)) ∧
    (0 < hashes_per_tick → Ledger.Entry.is_tick e = true →
      c + e.num_hashes = hashes_per_tick →
      Ledger.verify_tick_hash_count (e :: entries) c hashes_per_tick
        = Ledger.verify_tick_hash_count entries 0 hashes_per_tick) ∧
    (0 < hashes_per_tick → Ledger.Entry.is_tick e = false →
      Ledger.verify_tick_hash_count (e :: entries) c hashes_per_tick
        = Ledger.verify_tick_hash_count entries (c + e.num_hashes)
            hashes_per_tick) := by
  refine ⟨?_, ?_, ?_, ?_, ?_⟩
  · simp [Ledger.verify_tick_hash_count]
  · intro hpos
    simp [Ledger.verify_tick_hash_count, Nat.pos_iff_ne_zero.mp hpos,
      Ledger.tick_hash_count_go]
  · intro hpos htick hne
    simp [Ledger.verify_tick_hash_count, Nat.pos_iff_ne_zero.mp hpos,
      Ledger.tick_hash_count_go, Ledger.Entry.is_tick] at *
    simp [htick, hne]
  · intro hpos htick heq
    simp [Ledger.verify_tick_hash_count, Nat.pos_iff_ne_zero.mp hpos,
      Ledger.tick_hash_count_go, Ledger.Entry.is_tick] at *
    simp [htick, heq]
  · intro hpos htick
    simp [Ledger.verify_tick_hash_count, Nat.pos_iff_ne_zero.mp hpos,
      Ledger.tick_hash_count_go, Ledger.Entry.is_tick] at *
    simp [htick]

/-- C6 witness: the characterization applied at concrete inputs, one conjunct
with every hypothesis discharged: a lone tick carrying 3 hashes against a
cadence of 5 with carry-in 1 fails and reports carry 4. -/
theorem C6_witness :
    Ledger.verify_tick_hash_count [(⟨3, 0, []⟩ : Ledger.Entry Nat Nat)] 1 5
      = (false, 4) := by
  have h := (C6_verify_tick_hash_count_spec ([] : List (Ledger.Entry Nat Nat))
    1 5 ⟨3, 0, []⟩).2.2.1 (by decide) (by decide) (by decide)
  simpa using h

namespace PohLog

-- The early log module `src/log.rs` hashes `Sha256Hash` values and mixes in
-- event signatures.  The SHA-256 primitive (`hash`, from the external `sha2`
-- crate) and the byte-level concatenation hash `extend_and_hash` are
-- abstracted as `sha` and `ext`; `S` is the signature type, `H` the hash
-- type, and `T` the payload type of an event.
variable {T H S : Type} [DecidableEq H] [DecidableEq S]
variable (sha : H → H) (ext : H → S → H)

/-- Modelled from the spec: the event type consumed by `src/log.rs`. The
module's companion `event` source of the same vintage is not among the
sources (the `event.rs` present is an older revision with a different data
shape, which the spec notes in its open questions); per the spec a log event
is either a clock tick or a signed claim or transaction, and only the signed
variants carry a signature. -/
inductive Event (T H S : Type) where
  | tick
  | claim (key : Nat) (data : T) (last_id : H) (sig : S)
  | transaction (from_key to_key : Nat) (data : T) (last_id : H) (sig : S)

/-- Modelled from the spec: `get_signature` of the missing `event` module
returns the signature of a signed event and nothing for a tick. -/
def get_signature : Event T H S → Option S
  | .tick => none
  | .claim _ _ _ sig => some sig
  | .transaction _ _ _ _ sig => some sig

/-- An `Entry<T>` of `src/log.rs` (lines 25-30). -/
structure Entry (T H S : Type) where
  num_hashes : Nat
  id : H
  event : Event T H S

/-- The constructor `Entry::new_tick` (lines 35-42). -/
def Entry.new_tick (num_hashes : Nat) (id : H) : Entry T H S :=
  { num_hashes := num_hashes, id := id, event := .tick }

/-- The function `next_hash` of `src/log.rs` (lines 61-76): hash the previous
id once per loop iteration from `start_index` (1 when the event carries a
signature, else 0) up to `num_hashes`, then extend with the signature when
present. -/
def next_hash (start_hash : H) (num_hashes : Nat) (event : Event T H S) : H :=
  let sig := get_signature event
  let start_index := if sig.isSome then 1 else 0
  let id := sha^[num_hashes - start_index] start_hash
  match sig with
  | some s => ext id s
  | none => id

/-- The function `create_entry` of `src/log.rs` (lines 79-92): the recorded
hash count is the carried-in count plus one when the event is signed, but the
id is computed by `next_hash` with `num_hashes = 0`. -/
def create_entry (start_hash : H) (cur_hashes : Nat) (event : Event T H S) :
    Entry T H S :=
  let sig := get_signature event
  let num_hashes := cur_hashes + if sig.isSome then 1 else 0
  { num_hashes := num_hashes
    id := next_hash sha ext start_hash 0 event
    event := event }

-- `verify_event` of the missing companion `event` module checks the ed25519
-- signature of a signed event (external crypto); it is abstracted as a
-- predicate on events.
variable (vEvent : Event T H S → Bool)

/-- The function `verify_entry` of `src/log.rs` (lines 118-123): the event
must pass `verify_event` and the id must equal the recomputed `next_hash`
from `start_hash` over the entry's recorded hash count. -/
def verify_entry (entry : Entry T H S) (start_hash : H) : Bool :=
  if !vEvent entry.event then false
  else decide (entry.id = next_hash sha ext start_hash entry.num_hashes entry.event)

/-- The parallel slice verifier `verify_slice` of `src/log.rs` (lines
126-130): zip a genesis tick holding the anchor and the slice with the slice
itself and check each entry against its predecessor's id. The rayon parallel
iteration is modelled as iteration over the zipped list. -/
def verify_slice (events : List (Entry T H S)) (start_hash : H) : Bool :=
  (List.zip (Entry.new_tick 0 start_hash :: events) events).all
    fun p => verify_entry sha ext vEvent p.2 p.1.id

/-- The serial reference verifier `verify_slice_seq` of `src/log.rs` (lines
140-144): the same genesis-zip traversal performed serially. -/
def verify_slice_seq (events : List (Entry T H S)) (start_hash : H) : Bool :=
  (List.zip (Entry.new_tick 0 start_hash :: events) events).all
    fun p => verify_entry sha ext vEvent p.2 p.1.id

end PohLog

/-- C3 counterexample: with successor hashing, carry-in `cur_hashes = 1` and
a tick event (always accepted by event verification), the entry produced by
`create_entry(0, 1, Tick)` records one hash but keeps id equal to the start
hash, so `verify_entry` against that same start hash recomputes one hash too
many and fails. -/
theorem C3_counterexample :
    PohLog.get_signature (PohLog.Event.tick (T := Nat) (H := Nat) (S := Nat))
        = none ∧
    (fun _ => true : PohLog.Event Nat Nat Nat → Bool) PohLog.Event.tick = true ∧
    PohLog.verify_entry Nat.succ (fun h s => h + s) (fun _ => true)
        (PohLog.create_entry Nat.succ (fun h s => h + s) 0 1
          (PohLog.Event.tick (T := Nat) (H := Nat) (S := Nat))) 0 = false := by
  refine ⟨rfl, rfl, ?_⟩
  simp [PohLog.verify_entry, PohLog.create_entry, PohLog.next_hash,
    PohLog.get_signature]

/-- C3 (amended): the entry produced by `create_entry(start_hash, cur_hashes,
event)` verifies not against `start_hash` itself but against the hash from
which `start_hash` was reached by `cur_hashes` sequential hash steps (the
recorder always calls it with the tip already advanced that far); with
`cur_hashes = 0` the anchor is `start_hash` itself. This holds for every
event accepted by event verification. -/
theorem C3_create_entry_verifies {T H S : Type} [DecidableEq H] [DecidableEq S]
    (sha : H → H) (ext : H → S → H) (vEvent : PohLog.Event T H S → Bool)
    (anchor : H) (cur_hashes : Nat) (event : PohLog.Event T H S)
    (hv : vEvent event = true) :
    PohLog.verify_entry sha ext vEvent
      (PohLog.create_entry sha ext (sha^[cur_hashes] anchor) cur_hashes event)
      anchor = true := by
  cases event <;>
    simp [PohLog.verify_entry, PohLog.create_entry, PohLog.next_hash,
      PohLog.get_signature, hv, Function.iterate_succ_apply,
      Function.iterate_succ_apply']

/-- C3 witness: the amended statement at the concrete input of the
counterexample, hash anchor `0`, carry-in `1` and a tick event. -/
theorem C3_witness :
    PohLog.verify_entry Nat.succ (fun h s => h + s) (fun _ => true)
      (PohLog.create_entry Nat.succ (fun h s => h + s) (Nat.succ^[1] 0) 1
        (PohLog.Event.tick (T := Nat) (H := Nat) (S := Nat))) 0 = true :=
  C3_create_entry_verifies Nat.succ (fun h s => h + s) (fun _ => true) 0 1
    PohLog.Event.tick rfl

/-- C7: the parallel slice verifier and the serial reference verifier agree
on every slice of entries and every anchor hash: once the rayon scheduling is
erased both traverse the same genesis-prefixed pairing and apply the same
per-entry check, for every hash primitive and every event-verification
predicate. -/
theorem C7_verify_slice_agrees {T H S : Type} [DecidableEq H] [DecidableEq S]
    (sha : H → H) (ext : H → S → H) (vEvent : PohLog.Event T H S → Bool)
    (events : List (PohLog.Entry T H S)) (start_hash : H) :
    PohLog.verify_slice sha ext vEvent events start_hash
      = PohLog.verify_slice_seq sha ext vEvent events start_hash := rfl

namespace Acct

/-- The error type `AccountingError` of `src/accountant.rs` (lines 19-25). -/
inductive AccountingError where
  | InsufficientFunds
  | InvalidTransfer
  | InvalidTransferSignature
  | SendError
  deriving DecidableEq

/-- Modelled from the spec: a concrete payment `Pay(to, amount)`, the terminal
action of a plan.  The accountant's `plan` module is not among the sources;
the spec describes its data shape in sections 4.G and 9.  Public keys and
signatures are opaque identities, modelled as naturals; assets are signed
64-bit amounts, modelled as integers. -/
structure Payment where
  asset : Int
  to_key : Nat
  deriving DecidableEq

/-- Modelled from the spec: the only concrete action of a plan is a payment
(the accountant matches plans against `Plan::Action(Action::Pay(..))`). -/
inductive Action where
  | pay (payment : Payment)
  deriving DecidableEq

/-- Modelled from the spec: a plan condition is either a timestamp threshold
(resolved by the first witness timestamp at or past it) or a release
signature from a named key.  Timestamps are modelled as integers with epoch
zero at 0. -/
inductive Condition where
  | timestamp (dt : Int)
  | signature (key : Nat)
  deriving DecidableEq

/-- Modelled from the spec: a pending plan is an immediately payable action,
an action gated on one condition (after-date or release-on-sig), or a race of
two gated actions (release versus refund); the plan is a pure reducer over
witness events, terminal on the first action. -/
inductive Plan where
  | action (a : Action)
  | after (c : Condition) (a : Action)
  | race (c1 : Condition) (a1 : Action) (c2 : Condition) (a2 : Action)
  deriving DecidableEq

/-- Modelled from the spec: the witness events fed to a plan, a wall-clock
timestamp or a release signature. -/
inductive PlanEvent where
  | timestamp (t : Int)
  | signature (key : Nat)
  deriving DecidableEq

/-- Modelled from the spec: whether a witness event satisfies a condition; a
timestamp threshold is met by any witnessed time at or past it, a signature
condition by the matching key. -/
def Condition.is_satisfied : Condition → PlanEvent → Bool
  | .timestamp dt, .timestamp t => decide (dt ≤ t)
  | .signature key, .signature k => decide (key = k)
  | _, _ => false

/-- Modelled from the spec: `Plan::process_event` reduces the plan under a
witness event, returning the updated plan and whether it became actionable;
an immediate action is already actionable, a gated action fires when its
condition is satisfied, and a race fires on whichever condition is satisfied
first. -/
def Plan.process_event : Plan → PlanEvent → Plan × Bool
  | .action a, _ => (.action a, true)
  | .after c a, e =>
    if c.is_satisfied e then (.action a, true) else (.after c a, false)
  | .race c1 a1 c2 a2, e =>
    if c1.is_satisfied e then (.action a1, true)
    else if c2.is_satisfied e then (.action a2, true)
    else (.race c1 a1 c2 a2, false)

/-- A `Transaction` as the accountant consumes it: payer, plan, transferred
asset amount and signature.  The accountant's `transaction` module is not
among the sources; these are exactly the fields `process_transaction` and
`process_verified_transaction` read.  Ed25519 signature verification
(`tr.verify()`) is external crypto, modelled as the opaque field
`sig_valid`. -/
structure Transaction where
  from_key : Nat
  plan : Plan
  asset : Int
  sig : Nat
  sig_valid : Bool
  deriving DecidableEq

/-- Association-list lookup, the embedding of `HashMap::get`: the value at
the first matching key. -/
def alookup {α : Type} : List (Nat × α) → Nat → Option α
  | [], _ => none
  | (k, v) :: rest, key => if k = key then some v else alookup rest key

/-- The embedding of `HashMap::contains_key`. -/
def acontains {α : Type} (m : List (Nat × α)) (key : Nat) : Bool :=
  (alookup m key).isSome

/-- The embedding of mutating the value behind `HashMap::get_mut`. -/
def aupdate {α : Type} (m : List (Nat × α)) (key : Nat) (f : α → α) :
    List (Nat × α) :=
  m.map fun kv => if kv.1 = key then (kv.1, f kv.2) else kv

/-- The embedding of `HashMap::remove`. -/
def aremove {α : Type} (m : List (Nat × α)) (key : Nat) : List (Nat × α) :=
  m.filter fun kv => kv.1 ≠ key

/-- The embedding of `HashMap::insert`: replace the value behind an existing
key, otherwise append the new binding. -/
def ainsert {α : Type} (m : List (Nat × α)) (key : Nat) (v : α) :
    List (Nat × α) :=
  if acontains m key then aupdate m key (fun _ => v) else m ++ [(key, v)]

/-- The accountant state of `src/accountant.rs` (lines 29-37): the balances
map, the pending-plans map keyed by transaction signature, the signature
replay set (owned by the historian in the source, `historian.signatures`),
the trusted time sources and the last accepted wall-clock time (epoch zero is
0).  The historian channel machinery and the `first_id`/`last_id` bookkeeping
are external concurrency plumbing the claims do not touch. -/
structure Accountant where
  balances : List (Nat × Int)
  pending : List (Nat × Plan)
  signatures : List Nat
  time_sources : List Nat
  last_time : Int
  deriving DecidableEq

/-- Modelled from the spec: `reserve_signature` of the historian (the
`historian.rs` among the sources is an earlier revision without it): reject a
signature already in the replay set, otherwise insert it; returns the verdict
and the updated set. -/
def reserve_signature (sigs : List Nat) (sig : Nat) : Bool × List Nat :=
  if decide (sig ∈ sigs) then (false, sigs) else (true, sigs ++ [sig])

/-- The helper `Accountant::is_deposit` (lines 87-93): a transaction is a
deposit when deposits are allowed and its plan pays the payer itself. -/
def is_deposit (allow_deposits : Bool) (from_key : Nat) (plan : Plan) : Bool :=
  match plan with
  | .action (.pay payment) => allow_deposits && decide (from_key = payment.to_key)
  | _ => false

/-- The method `Accountant::complete_transaction` (lines 116-126): when the
plan is a concrete payment, credit the payee, inserting the key when absent;
any other plan changes nothing. -/
def complete_transaction (s : Accountant) (plan : Plan) : Accountant :=
  match plan with
  | .action (.pay payment) =>
    if acontains s.balances payment.to_key then
      { s with balances := aupdate s.balances payment.to_key (· + payment.asset) }
    else
      { s with balances := s.balances ++ [(payment.to_key, payment.asset)] }
  | _ => s

/-- The method `Accountant::process_verified_transaction` (lines 128-153):
reserve the signature (rejecting replays), debit the payer unless the
transaction is a deposit (and only when a balance entry exists), feed the
plan a synthetic timestamp at the last accepted time, then either complete
the resulting payment or park the reduced plan in the pending map. -/
def process_verified_transaction (s : Accountant) (tr : Transaction)
    (allow_deposits : Bool) : Except AccountingError Unit × Accountant :=
  let r := reserve_signature s.signatures tr.sig
  if !r.1 then (.error .InvalidTransferSignature, s)
  else
    let s1 := { s with signatures := r.2 }
    let s2 :=
      if !is_deposit allow_deposits tr.from_key tr.plan then
        if acontains s1.balances tr.from_key then
          { s1 with balances := aupdate s1.balances tr.from_key (· - tr.asset) }
        else s1
      else s1
    let p := tr.plan.process_event (.timestamp s2.last_time)
    if !p.2 then (.ok (), { s2 with pending := ainsert s2.pending tr.sig p.1 })
    else (.ok (), complete_transaction s2 p.1)

/-- The method `Accountant::process_transaction` (lines 95-113): reject a
transaction failing signature verification, reject an `asset` exceeding the
payer's balance (absent entries read as 0), then run the verified path; the
final send of the event to the historian channel is external and modelled as
succeeding. -/
def process_transaction (s : Accountant) (tr : Transaction) :
    Except AccountingError Unit × Accountant :=
  if !tr.sig_valid then (.error .InvalidTransfer, s)
  else if decide ((alookup s.balances tr.from_key).getD 0 < tr.asset) then
    (.error .InsufficientFunds, s)
  else process_verified_transaction s tr false

/-- The method `Accountant::process_verified_sig` (lines 155-169): feed the
release signature to the pending plan behind `tx_sig` (mutating it in
place); when it becomes actionable, remove it and complete it. -/
def process_verified_sig (s : Accountant) (from_key : Nat) (tx_sig : Nat) :
    Accountant :=
  match alookup s.pending tx_sig with
  | none => s
  | some plan =>
    let p := plan.process_event (.signature from_key)
    let s1 := { s with pending := aupdate s.pending tx_sig (fun _ => p.1) }
    if p.2 then
      match alookup s1.pending tx_sig with
      | some plan' => complete_transaction
          { s1 with pending := aremove s1.pending tx_sig } plan'
      | none => s1
    else s1

/-- One step of the completion loop of `Accountant::process_verified_timestamp`
(lines 194-198): remove the pending plan behind a completed key and credit
it. -/
def settle_one (st : Accountant) (key : Nat) : Accountant :=
  match alookup st.pending key with
  | some plan => complete_transaction { st with pending := aremove st.pending key } plan
  | none => st

/-- The pending sweep of `Accountant::process_verified_timestamp` (lines
186-198): feed every pending plan a timestamp at the last accepted time
(mutating the plans in place), then remove and complete those that became
actionable, one key at a time. -/
def sweep_pending (s : Accountant) : Accountant :=
  let processed := s.pending.map
    fun kp => (kp.1, kp.2.process_event (.timestamp s.last_time))
  let completed := (processed.filter fun kp => kp.2.2).map fun kp => kp.1
  let s1 := { s with pending := processed.map fun kp => (kp.1, kp.2.1) }
  completed.foldl settle_one s1

/-- The method `Accountant::process_verified_timestamp` (lines 171-201): a
first-ever timestamp bootstraps trust in its sender; a timestamp from a
trusted sender strictly past the last accepted time advances it; an untrusted
sender returns immediately; finally the pending plans are swept with the new
time. -/
def process_verified_timestamp (s : Accountant) (from_key : Nat) (dt : Int) :
    Accountant :=
  let s1 :=
    if s.last_time = 0 then
      { s with time_sources :=
          if decide (from_key ∈ s.time_sources) then s.time_sources
          else s.time_sources ++ [from_key] }
    else s
  if decide (from_key ∈ s1.time_sources) then
    let s2 := if s1.last_time < dt then { s1 with last_time := dt } else s1
    sweep_pending s2
  else s1

/-- The event type the accountant replays (`Event` of the missing companion
`event` module, as dispatched by `process_verified_event`, lines 203-209): a
transaction, a signature witness or a timestamp witness. -/
inductive Event where
  | transaction (tr : Transaction)
  | signature (from_key : Nat) (tx_sig : Nat)
  | timestamp (from_key : Nat) (dt : Int)
  deriving DecidableEq

/-- The method `Accountant::process_verified_event` (lines 203-209). -/
def process_verified_event (s : Accountant) (event : Event)
    (allow_deposits : Bool) : Except AccountingError Unit × Accountant :=
  match event with
  | .transaction tr => process_verified_transaction s tr allow_deposits
  | .signature f tx_sig => (.ok (), process_verified_sig s f tx_sig)
  | .timestamp f dt => (.ok (), process_verified_timestamp s f dt)

end Acct

namespace Acct

theorem aupdate_cons {α : Type} (a : Nat) (b : α) (rest : List (Nat × α))
    (key : Nat) (f : α → α) :
    aupdate ((a, b) :: rest) key f =
      (if a = key then (a, f b) else (a, b)) :: aupdate rest key f := rfl

theorem alookup_cons {α : Type} (a : Nat) (b : α) (rest : List (Nat × α))
    (key : Nat) :
    alookup ((a, b) :: rest) key
      = if a = key then some b else alookup rest key := rfl

theorem alookup_aupdate_eq {α : Type} (m : List (Nat × α)) (key : Nat)
    (f : α → α) : alookup (aupdate m key f) key = (alookup m key).map f := by
  induction m with
  | nil => rfl
  | cons kv rest ih =>
    obtain ⟨a, b⟩ := kv
    rw [aupdate_cons]
    by_cases h : a = key
    · subst h
      rw [if_pos rfl, alookup_cons, alookup_cons, if_pos rfl, if_pos rfl]
      rfl
    · rw [if_neg h, alookup_cons, if_neg h, ih, alookup_cons, if_neg h]

theorem alookup_aupdate_ne {α : Type} (m : List (Nat × α)) (key key' : Nat)
    (f : α → α) (h : key' ≠ key) :
    alookup (aupdate m key f) key' = alookup m key' := by
  induction m with
  | nil => rfl
  | cons kv rest ih =>
    obtain ⟨a, b⟩ := kv
    rw [aupdate_cons]
    by_cases ha : a = key
    · subst ha
      have hk : ¬a = key' := fun hc => h hc.symm
      rw [if_pos rfl, alookup_cons, if_neg hk, ih, alookup_cons, if_neg hk]
    · rw [if_neg ha, alookup_cons, alookup_cons, ih]

theorem alookup_append_ne {α : Type} (m : List (Nat × α)) (k key : Nat) (v : α)
    (h : key ≠ k) : alookup (m ++ [(k, v)]) key = alookup m key := by
  induction m with
  | nil =>
    have hk : ¬k = key := fun hc => h hc.symm
    show alookup [(k, v)] key = none
    rw [alookup_cons, if_neg hk]
    rfl
  | cons kv rest ih =>
    obtain ⟨a, b⟩ := kv
    rw [List.cons_append, alookup_cons, alookup_cons, ih]

theorem alookup_append_self {α : Type} (m : List (Nat × α)) (k : Nat) (v : α)
    (h : alookup m k = none) : alookup (m ++ [(k, v)]) k = some v := by
  induction m with
  | nil =>
    show alookup [(k, v)] k = some v
    rw [alookup_cons, if_pos rfl]
  | cons kv rest ih =>
    obtain ⟨a, b⟩ := kv
    rw [alookup_cons] at h
    by_cases ha : a = k
    · rw [if_pos ha] at h
      exact absurd h (by simp)
    · rw [if_neg ha] at h
      rw [List.cons_append, alookup_cons, if_neg ha]
      exact ih h

theorem complete_transaction_pending (s : Accountant) (plan : Plan) :
    (complete_transaction s plan).pending = s.pending := by
  cases plan with
  | action a =>
    cases a with
    | pay p =>
      simp only [complete_transaction]
      split <;> rfl
  | after c a => rfl
  | race c1 a1 c2 a2 => rfl

theorem complete_transaction_signatures (s : Accountant) (plan : Plan) :
    (complete_transaction s plan).signatures = s.signatures := by
  cases plan with
  | action a =>
    cases a with
    | pay p =>
      simp only [complete_transaction]
      split <;> rfl
  | after c a => rfl
  | race c1 a1 c2 a2 => rfl

theorem complete_transaction_time_sources (s : Accountant) (plan : Plan) :
    (complete_transaction s plan).time_sources = s.time_sources := by
  cases plan with
  | action a =>
    cases a with
    | pay p =>
      simp only [complete_transaction]
      split <;> rfl
  | after c a => rfl
  | race c1 a1 c2 a2 => rfl

theorem complete_transaction_last_time (s : Accountant) (plan : Plan) :
    (complete_transaction s plan).last_time = s.last_time := by
  cases plan with
  | action a =>
    cases a with
    | pay p =>
      simp only [complete_transaction]
      split <;> rfl
  | after c a => rfl
  | race c1 a1 c2 a2 => rfl

theorem settle_one_signatures (st : Accountant) (key : Nat) :
    (settle_one st key).signatures = st.signatures := by
  unfold settle_one
  cases alookup st.pending key with
  | none => rfl
  | some plan => simp [complete_transaction_signatures]

theorem settle_one_time_sources (st : Accountant) (key : Nat) :
    (settle_one st key).time_sources = st.time_sources := by
  unfold settle_one
  cases alookup st.pending key with
  | none => rfl
  | some plan => simp [complete_transaction_time_sources]

theorem settle_one_last_time (st : Accountant) (key : Nat) :
    (settle_one st key).last_time = st.last_time := by
  unfold settle_one
  cases alookup st.pending key with
  | none => rfl
  | some plan => simp [complete_transaction_last_time]

theorem foldl_settle_last_time (ks : List Nat) (st : Accountant) :
    (ks.foldl settle_one st).last_time = st.last_time := by
  induction ks generalizing st with
  | nil => rfl
  | cons k rest ih => rw [List.foldl_cons, ih, settle_one_last_time]

theorem foldl_settle_signatures (ks : List Nat) (st : Accountant) :
    (ks.foldl settle_one st).signatures = st.signatures := by
  induction ks generalizing st with
  | nil => rfl
  | cons k rest ih => rw [List.foldl_cons, ih, settle_one_signatures]

theorem foldl_settle_time_sources (ks : List Nat) (st : Accountant) :
    (ks.foldl settle_one st).time_sources = st.time_sources := by
  induction ks generalizing st with
  | nil => rfl
  | cons k rest ih => rw [List.foldl_cons, ih, settle_one_time_sources]

theorem sweep_pending_last_time (s : Accountant) :
    (sweep_pending s).last_time = s.last_time := by
  simp [sweep_pending, foldl_settle_last_time]

theorem sweep_pending_signatures (s : Accountant) :
    (sweep_pending s).signatures = s.signatures := by
  simp [sweep_pending, foldl_settle_signatures]

theorem sweep_pending_time_sources (s : Accountant) :
    (sweep_pending s).time_sources = s.time_sources := by
  simp [sweep_pending, foldl_settle_time_sources]

theorem pvtransaction_last_time (s : Accountant) (tr : Transaction)
    (ad : Bool) :
    (process_verified_transaction s tr ad).2.last_time = s.last_time := by
  simp only [process_verified_transaction]
  split
  · rfl
  · simp [apply_ite Prod.snd, apply_ite Accountant.last_time,
      complete_transaction_last_time]

theorem pvsig_last_time (s : Accountant) (from_key tx_sig : Nat) :
    (process_verified_sig s from_key tx_sig).last_time = s.last_time := by
  unfold process_verified_sig
  cases alookup s.pending tx_sig with
  | none => rfl
  | some plan =>
    simp only []
    split
    · split
      · simp [complete_transaction_last_time]
      · rfl
    · rfl

theorem pvtimestamp_last_time_cases (s : Accountant) (from_key : Nat)
    (dt : Int) :
    (process_verified_timestamp s from_key dt).last_time = s.last_time ∨
      (s.last_time < dt ∧
        (process_verified_timestamp s from_key dt).last_time = dt ∧
        (decide (from_key ∈ s.time_sources) = true ∨ s.last_time = 0)) := by
  by_cases h0 : s.last_time = 0
  · by_cases hlt : s.last_time < dt
    · right
      refine ⟨hlt, ?_, Or.inr h0⟩
      rw [h0] at hlt
      by_cases hm : from_key ∈ s.time_sources <;>
        simp [process_verified_timestamp, h0, hm, hlt, sweep_pending_last_time]
    · left
      rw [h0] at hlt
      by_cases hm : from_key ∈ s.time_sources <;>
        simp [process_verified_timestamp, h0, hm, hlt, sweep_pending_last_time]
  · by_cases hm : from_key ∈ s.time_sources
    · by_cases hlt : s.last_time < dt
      · right
        refine ⟨hlt, ?_, Or.inl (by simpa using hm)⟩
        simp [process_verified_timestamp, h0, hm, hlt, sweep_pending_last_time]
      · left
        simp [process_verified_timestamp, h0, hm, hlt, sweep_pending_last_time]
    · left
      simp [process_verified_timestamp, h0, hm]

theorem pvtimestamp_untrusted (s : Accountant) (from_key : Nat) (dt : Int)
    (h0 : s.last_time ≠ 0) (hm : decide (from_key ∈ s.time_sources) = false) :
    process_verified_timestamp s from_key dt = s := by
  simp only [decide_eq_false_iff_not] at hm
  simp [process_verified_timestamp, h0, hm]

theorem ptransaction_last_time (s : Accountant) (tr : Transaction) :
    (process_transaction s tr).2.last_time = s.last_time := by
  unfold process_transaction
  split
  · rfl
  · split
    · rfl
    · exact pvtransaction_last_time s tr false

end Acct

/-- C2: a transaction passing signature verification whose payer balance
(read as 0 when absent) is strictly below the transferred amount is rejected
with `InsufficientFunds`, and the whole accountant state, in particular the
balances map, the pending-plans map and the signature replay set, is left
exactly as it was: the balance check of `process_transaction` runs before the
signature is reserved, so the failed transfer does not consume the
signature. -/
theorem C2_insufficient_funds_frame (s : Acct.Accountant)
    (tr : Acct.Transaction) (hv : tr.sig_valid = true)
    (hb : (Acct.alookup s.balances tr.from_key).getD 0 < tr.asset) :
    Acct.process_transaction s tr
      = (Except.error Acct.AccountingError.InsufficientFunds, s) := by
  simp [Acct.process_transaction, hv, hb]

/-- C2 witness: an empty-balance payer asked to move 5 units. -/
theorem C2_witness :
    Acct.process_transaction ⟨[], [], [], [], 0⟩
        ⟨1, Acct.Plan.action (Acct.Action.pay ⟨5, 2⟩), 5, 9, true⟩
      = (Except.error Acct.AccountingError.InsufficientFunds,
         ⟨[], [], [], [], 0⟩) :=
  C2_insufficient_funds_frame ⟨[], [], [], [], 0⟩
    ⟨1, Acct.Plan.action (Acct.Action.pay ⟨5, 2⟩), 5, 9, true⟩ rfl (by decide)

/-- C4 counterexample: a signature-verified transaction whose signature `7`
already sits in the replay set but whose payer has no balance entry is
rejected with `InsufficientFunds`, not with the duplicate-signature error
`InvalidTransferSignature`: the balance check of `process_transaction` runs
before the replay-set check, contrary to the claim. -/
theorem C4_counterexample :
    (⟨1, Acct.Plan.action (Acct.Action.pay ⟨5, 2⟩), 5, 7,
        true⟩ : Acct.Transaction).sig_valid = true ∧
    decide ((7 : Nat) ∈ (⟨[], [], [7], [], 0⟩ : Acct.Accountant).signatures)
        = true ∧
    Acct.process_transaction ⟨[], [], [7], [], 0⟩
        ⟨1, Acct.Plan.action (Acct.Action.pay ⟨5, 2⟩), 5, 7, true⟩
      = (Except.error Acct.AccountingError.InsufficientFunds,
         ⟨[], [], [7], [], 0⟩) := by
  refine ⟨rfl, by decide, ?_⟩
  simp [Acct.process_transaction, Acct.alookup]

/-- C4 (amended): the replay-set check runs after the insufficient-funds
check, not before it: a transaction passing signature verification whose
signature is already in the replay set is rejected with the
duplicate-signature error `InvalidTransferSignature`, leaving the state
unchanged, provided the payer's balance covers the amount; with an
insufficient balance `InsufficientFunds` is reported instead. -/
theorem C4_duplicate_signature (s : Acct.Accountant) (tr : Acct.Transaction)
    (hv : tr.sig_valid = true)
    (hdup : decide (tr.sig ∈ s.signatures) = true)
    (hb : tr.asset ≤ (Acct.alookup s.balances tr.from_key).getD 0) :
    Acct.process_transaction s tr
      = (Except.error Acct.AccountingError.InvalidTransferSignature, s) := by
  simp [Acct.process_transaction, hv, not_lt.mpr hb,
    Acct.process_verified_transaction, Acct.reserve_signature, hdup]

/-- C4 witness: payer 1 holds 10 units, the duplicate signature 7 is rejected
with the duplicate-signature error. -/
theorem C4_witness :
    Acct.process_transaction ⟨[(1, 10)], [], [7], [], 0⟩
        ⟨1, Acct.Plan.action (Acct.Action.pay ⟨5, 2⟩), 5, 7, true⟩
      = (Except.error Acct.AccountingError.InvalidTransferSignature,
         ⟨[(1, 10)], [], [7], [], 0⟩) :=
  C4_duplicate_signature ⟨[(1, 10)], [], [7], [], 0⟩
    ⟨1, Acct.Plan.action (Acct.Action.pay ⟨5, 2⟩), 5, 7, true⟩ rfl (by decide)
    (by decide)

/-- C10: `complete_transaction` modifies at most one balance: on a concrete
`Pay` plan it credits `payment.asset` to the payee, inserting the key with
value `payment.asset` when absent, and leaves every other balance, the
pending-plans map, the replay set, the time sources and the clock unchanged;
on any plan that is not a concrete action it changes nothing at all. -/
theorem C10_complete_transaction_frame (s : Acct.Accountant)
    (plan : Acct.Plan) :
    ((∀ a, plan ≠ Acct.Plan.action a) →
      Acct.complete_transaction s plan = s) ∧
    (∀ payment, plan = Acct.Plan.action (Acct.Action.pay payment) →
      (Acct.complete_transaction s plan).pending = s.pending ∧
      (Acct.complete_transaction s plan).signatures = s.signatures ∧
      (Acct.complete_transaction s plan).time_sources = s.time_sources ∧
      (Acct.complete_transaction s plan).last_time = s.last_time ∧
      Acct.alookup (Acct.complete_transaction s plan).balances payment.to_key
        = some ((Acct.alookup s.balances payment.to_key).getD 0
            + payment.asset) ∧
      ∀ k, k ≠ payment.to_key →
        Acct.alookup (Acct.complete_transaction s plan).balances k
          = Acct.alookup s.balances k) := by
  constructor
  · intro h
    cases plan with
    | action a => exact absurd rfl (h a)
    | after c a => rfl
    | race c1 a1 c2 a2 => rfl
  · rintro payment rfl
    refine ⟨Acct.complete_transaction_pending _ _,
      Acct.complete_transaction_signatures _ _,
      Acct.complete_transaction_time_sources _ _,
      Acct.complete_transaction_last_time _ _, ?_, ?_⟩
    · simp only [Acct.complete_transaction]
      by_cases hc : Acct.acontains s.balances payment.to_key = true
      · rw [if_pos hc]
        obtain ⟨v, hv⟩ := Option.isSome_iff_exists.mp
          (by simpa [Acct.acontains] using hc)
        simp [Acct.alookup_aupdate_eq, hv]
      · rw [if_neg hc]
        have hn : Acct.alookup s.balances payment.to_key = none :=
          Option.not_isSome_iff_eq_none.mp
            (by simpa [Acct.acontains] using hc)
        simp [Acct.alookup_append_self _ _ _ hn, hn]
    · intro k hk
      simp only [Acct.complete_transaction]
      by_cases hc : Acct.acontains s.balances payment.to_key = true
      · rw [if_pos hc]
        simpa using Acct.alookup_aupdate_ne s.balances payment.to_key k
          (· + payment.asset) hk
      · rw [if_neg hc]
        simpa using Acct.alookup_append_ne s.balances payment.to_key k
          payment.asset hk

/-- C10 witness: crediting 3 units to the existing payee 2, whose balance 5
becomes 8. -/
theorem C10_witness :
    Acct.alookup (Acct.complete_transaction ⟨[(2, 5)], [], [], [], 0⟩
        (Acct.Plan.action (Acct.Action.pay ⟨3, 2⟩))).balances 2 = some 8 := by
  have h := (C10_complete_transaction_frame ⟨[(2, 5)], [], [], [], 0⟩
    (Acct.Plan.action (Acct.Action.pay ⟨3, 2⟩))).2 ⟨3, 2⟩ rfl
  have h2 := h.2.2.2.2.1
  simpa [Acct.alookup_cons] using h2

/-- C8: the accountant clock is monotone and guarded: no replayed event and
no transaction ever decreases `last_time`; when an event changes `last_time`
it is a timestamp witness from a sender that was already trusted or arrived
while `last_time` was still epoch zero (bootstrap), carrying a time strictly
past the old clock, and the clock is set to exactly that time; and a
timestamp from an untrusted sender after bootstrap leaves the whole state,
in particular `last_time`, the balances and the pending plans, unchanged. -/
theorem C8_last_time_monotone (s : Acct.Accountant) (e : Acct.Event)
    (allow_deposits : Bool) (tr : Acct.Transaction) (f : Nat) (dt : Int) :
    s.last_time ≤ (Acct.process_verified_event s e allow_deposits).2.last_time ∧
    (Acct.process_transaction s tr).2.last_time = s.last_time ∧
    ((Acct.process_verified_event s e allow_deposits).2.last_time
        ≠ s.last_time →
      ∃ g t, e = Acct.Event.timestamp g t ∧ s.last_time < t ∧
        (Acct.process_verified_event s e allow_deposits).2.last_time = t ∧
        (decide (g ∈ s.time_sources) = true ∨ s.last_time = 0)) ∧
    (s.last_time ≠ 0 → decide (f ∈ s.time_sources) = false →
      Acct.process_verified_timestamp s f dt = s) := by
  refine ⟨?_, Acct.ptransaction_last_time s tr, ?_,
    Acct.pvtimestamp_untrusted s f dt⟩
  · cases e with
    | transaction tr' =>
      exact le_of_eq (Acct.pvtransaction_last_time s tr' allow_deposits).symm
    | signature g sig => exact le_of_eq (Acct.pvsig_last_time s g sig).symm
    | timestamp g t =>
      rcases Acct.pvtimestamp_last_time_cases s g t with h | ⟨hlt, heq, _⟩
      · simp [Acct.process_verified_event, h]
      · have ht : (Acct.process_verified_event s (Acct.Event.timestamp g t)
            allow_deposits).2.last_time = t := by
          simpa [Acct.process_verified_event] using heq
        rw [ht]
        exact le_of_lt hlt
  · intro hne
    cases e with
    | transaction tr' =>
      exact absurd (by simpa [Acct.process_verified_event] using
        Acct.pvtransaction_last_time s tr' allow_deposits) hne
    | signature g sig =>
      exact absurd (by simpa [Acct.process_verified_event] using
        Acct.pvsig_last_time s g sig) hne
    | timestamp g t =>
      rcases Acct.pvtimestamp_last_time_cases s g t with h | ⟨hlt, heq, hsrc⟩
      · exact absurd (by simpa [Acct.process_verified_event] using h) hne
      · exact ⟨g, t, rfl, hlt,
          by simpa [Acct.process_verified_event] using heq, hsrc⟩

/-- C8 witness: a bootstrap timestamp never lowers the epoch-zero clock, and
a timestamp from the untrusted sender 1 (only sender 2 is trusted) after
bootstrap (`last_time = 3`) leaves the state untouched. -/
theorem C8_witness :
    (0 : Int) ≤ (Acct.process_verified_event ⟨[], [], [], [], 0⟩
        (Acct.Event.timestamp 1 5) false).2.last_time ∧
    Acct.process_verified_timestamp ⟨[], [], [], [2], 3⟩ 1 9
      = ⟨[], [], [], [2], 3⟩ := by
  have h := C8_last_time_monotone ⟨[], [], [], [], 0⟩
    (Acct.Event.timestamp 1 5) false
    ⟨1, Acct.Plan.action (Acct.Action.pay ⟨1, 1⟩), 1, 1, true⟩ 1 9
  have h2 := C8_last_time_monotone ⟨[], [], [], [2], 3⟩
    (Acct.Event.timestamp 1 5) false
    ⟨1, Acct.Plan.action (Acct.Action.pay ⟨1, 1⟩), 1, 1, true⟩ 1 9
  exact ⟨h.1, h2.2.2.2 (by decide) (by decide)⟩

namespace Erasure

/-- `NUM_DATA` of `src/erasure.rs` (line 7): data blobs per erasure set. -/
def NUM_DATA : Nat := 16

/-- `NUM_CODING` of `src/erasure.rs` (line 8): coding blobs per erasure set,
also the maximum number of blobs that can go missing. -/
def NUM_CODING : Nat := 4

/-- The error type `ErasureError` of `src/erasure.rs` (lines 11-17). -/
inductive ErasureError where
  | NotEnoughBlocksToDecode
  | DecodeError
  | EncodeError
  | InvalidBlockSize
  deriving DecidableEq

/-- A blob as the recovery code uses it: its byte buffer, its `meta.size`,
and the rest of its metadata (address, port, id), which the recovery code
only copies around and which is therefore opaque.  The `packet` module
defining blobs is external to the sources. -/
structure Blob where
  data : List Nat
  size : Nat
  meta : Nat
  deriving DecidableEq

/-- A `WindowSlot` of the `streamer` module (external to the sources): a data
blob and a coding blob, each optional. -/
structure WindowSlot where
  data : Option Blob
  coding : Option Blob
  deriving DecidableEq

/-- The window access `window[i % window.len()]` used throughout `recover`. -/
def wget (window : List WindowSlot) (i : Nat) : WindowSlot :=
  window.getD (i % window.length) ⟨none, none⟩

/-- The window store `window[i % window.len()] = slot`. -/
def wset (window : List WindowSlot) (i : Nat) (slot : WindowSlot) :
    List WindowSlot :=
  window.set (i % window.length) slot

-- `jdecode k m data coding erasures` models the external FFI call
-- `jerasure_matrix_decode` together with the Cauchy matrix derived from
-- `galois_single_divide` (both live in the jerasure C library): it returns
-- the status code and the mutated data buffers.  `allocate` is the blob
-- handed out by `BlobRecycler::allocate`, `get_data_size` reads the
-- serialized data-size field out of a blob buffer, and `BLOB_HEADER_SIZE`
-- is the packet-layout constant; all are external to the sources.
variable (jdecode :
    Nat → Nat → List (List Nat) → List (List Nat) → List Int →
      Int × List (List Nat))
variable (allocate : Blob) (get_data_size : List Nat → Nat)
variable (BLOB_HEADER_SIZE : Nat)

/-- The function `decode_blocks` of `src/erasure.rs` (lines 117-163): an
empty data set succeeds trivially; all coding and data blocks must share the
first data block's length; then the jerasure decoder runs, a negative status
is a `DecodeError`, and otherwise the mutated data buffers are returned. -/
def decode_blocks (data : List (List Nat)) (coding : List (List Nat))
    (erasures : List Int) : Except ErasureError (List (List Nat)) :=
  if data.length = 0 then .ok data
  else
    let block_len := (data.headD []).length
    if coding.any fun x => decide (x.length ≠ block_len) then
      .error .InvalidBlockSize
    else if data.any fun x => decide (x.length ≠ block_len) then
      .error .InvalidBlockSize
    else
      let r := jdecode data.length coding.length data coding erasures
      if r.1 < 0 then .error .DecodeError else .ok r.2

/-- The count of empty data slots in the block starting at `block_start`
(first half of the counting loop of `recover`, lines 320-328). -/
def data_missing_count (window : List WindowSlot) (block_start : Nat) : Nat :=
  ((List.range NUM_DATA).filter
    fun k => (wget window (block_start + k)).data = none).length

/-- The count of empty coding slots at the last `NUM_CODING` positions of the
block starting at `block_start` (second half of the counting loop of
`recover`, lines 320-328). -/
def coding_missing_count (window : List WindowSlot) (block_start : Nat) :
    Nat :=
  ((List.range NUM_DATA).filter fun k =>
    NUM_DATA - NUM_CODING ≤ k ∧
      (wget window (block_start + k)).coding = none).length

/-- The in-progress recovery state of one block of `recover`: the window
(placeholder blobs are stored into it as they are allocated), the gathered
blob vector, the erasure index list, the metadata clone taken from the first
surviving data blob, and the common block size taken from the first surviving
coding blob. -/
structure RecSt where
  window : List WindowSlot
  blobs : List Blob
  erasures : List Int
  meta : Option Blob
  size : Option Nat
  deriving DecidableEq

/-- One data position of the gather loop of `recover` (lines 350-371): a
surviving blob is pushed onto the blob vector (capturing its metadata if it
is the first); a missing one is replaced by a freshly allocated placeholder,
stored into the window, pushed, and recorded in the erasure list under its
data index. -/
def add_data_slot (block_start : Nat) (st : RecSt) (k : Nat) : RecSt :=
  let i := block_start + k
  match (wget st.window i).data with
  | some b =>
    { st with blobs := st.blobs ++ [b]
              meta := match st.meta with
                      | some m => some m
                      | none => some b }
  | none =>
    { st with window := wset st.window i { wget st.window i with data := some allocate }
              blobs := st.blobs ++ [allocate]
              erasures := st.erasures ++ [(k : Int)] }

/-- One coding position of the gather loop of `recover` (lines 372-392): a
surviving blob is pushed (capturing the common block size, its `meta.size`
less the blob header, if it is the first); a missing one is replaced by a
placeholder, stored, pushed, and recorded in the erasure list offset by
`NUM_DATA`. -/
def add_coding_slot (block_start : Nat) (st : RecSt) (k : Nat) : RecSt :=
  let i := block_start + k
  match (wget st.window i).coding with
  | some b =>
    { st with blobs := st.blobs ++ [b]
              size := match st.size with
                      | some z => some z
                      | none => some (b.size - BLOB_HEADER_SIZE) }
  | none =>
    { st with window := wset st.window i { wget st.window i with coding := some allocate }
              blobs := st.blobs ++ [allocate]
              erasures := st.erasures ++ [((k + NUM_DATA : Nat) : Int)] }

/-- The write-back of the decoded buffers: the jerasure call mutates the
first `size` bytes of every data blob in place through the shared blob
references, so each data slot of the block receives the decoded prefix with
its original tail (lines 404-422). -/
def write_back (block_start size : Nat) (newData : List (List Nat))
    (window : List WindowSlot) : List WindowSlot :=
  (List.range NUM_DATA).foldl
    (fun w k =>
      let i := block_start + k
      match (wget w i).data with
      | some b =>
        wset w i { wget w i with
          data := some { b with data := newData.getD k [] ++ b.data.drop size } }
      | none => w)
    window

/-- The metadata fixup over the erasure list (lines 423-434): every
reconstructed blob receives the metadata cloned from the surviving peer and
its size is set from the data-size field of its decoded buffer, less the blob
header. -/
def fix_meta (block_start : Nat) (meta : Blob) (erasures : List Int)
    (window : List WindowSlot) : List WindowSlot :=
  erasures.foldl
    (fun w idx =>
      let n := idx.toNat
      if n < NUM_DATA then
        match (wget w (block_start + n)).data with
        | some b =>
          wset w (block_start + n) { wget w (block_start + n) with
            data := some { b with
              meta := meta.meta
              size := get_data_size b.data - BLOB_HEADER_SIZE } }
        | none => w
      else
        match (wget w (block_start + (n - NUM_DATA))).coding with
        | some b =>
          wset w (block_start + (n - NUM_DATA)) { wget w (block_start + (n - NUM_DATA)) with
            coding := some { b with
              meta := meta.meta
              size := get_data_size b.data - BLOB_HEADER_SIZE } }
        | none => w)
    window

/-- The recovery path of one block of `recover` (lines 342-435): gather
surviving blobs and placeholders, run the decoder over the buffers truncated
to the common size, propagate its failure, and on success write the decoded
buffers back and fix the metadata of every reconstructed blob.  The source
unwraps the common size and metadata, which cannot be absent on this path
because at most `NUM_CODING - 1` coding blobs and not all data blobs are
missing; the impossible branch is mapped to `DecodeError`. -/
def recover_block_go (window : List WindowSlot) (block_start : Nat) :
    Except ErasureError (List WindowSlot) :=
  let st1 := (List.range NUM_DATA).foldl
    (add_data_slot allocate block_start) ⟨window, [], [], none, none⟩
  let st2 := ((List.range NUM_CODING).map
      fun j => NUM_DATA - NUM_CODING + j).foldl
    (add_coding_slot allocate BLOB_HEADER_SIZE block_start) st1
  match st2.size, st2.meta with
  | some size, some meta =>
    let data_ptrs := (st2.blobs.take NUM_DATA).map fun b => b.data.take size
    let coding_ptrs := (st2.blobs.drop NUM_DATA).map fun b => b.data.take size
    match decode_blocks jdecode data_ptrs coding_ptrs
        (st2.erasures ++ [-1]) with
    | .error e => .error e
    | .ok newData =>
      .ok (fix_meta get_data_size BLOB_HEADER_SIZE block_start meta
        st2.erasures (write_back block_start size newData st2.window))
  | _, _ => .error .DecodeError

/-- The dispatch of one block of `recover` (lines 306-341): count the missing
data and coding slots, skip the block untouched when no data is missing or
when more than `NUM_CODING` slots are missing in total, and otherwise run the
recovery of `recover_block_go`. -/
def recover_block (window : List WindowSlot) (block_start : Nat) :
    Except ErasureError (List WindowSlot) :=
  if data_missing_count window block_start = 0 ∨
      NUM_CODING < data_missing_count window block_start +
        coding_missing_count window block_start then
    .ok window
  else
    recover_block_go jdecode allocate get_data_size BLOB_HEADER_SIZE window
      block_start

/-- The block loop of `recover` (lines 306-436): up to 101 blocks are
processed (the loop breaks at `i > 100`), each advancing `block_start` by
`NUM_DATA`; a decoder failure aborts the whole call. -/
def recover_loop :
    Nat → Nat → List WindowSlot → Except ErasureError (List WindowSlot)
  | 0, _, window => .ok window
  | n + 1, block_start, window =>
    match recover_block jdecode allocate get_data_size BLOB_HEADER_SIZE
        window block_start with
    | .error e => .error e
    | .ok w => recover_loop n (block_start + NUM_DATA) w

/-- The function `recover` of `src/erasure.rs` (lines 286-439): nothing to do
when nothing new was received; otherwise process the aligned blocks between
`consumed` and `received`, starting from `consumed` rounded down to the block
size. -/
def recover (window : List WindowSlot) (consumed received : Nat) :
    Except ErasureError (List WindowSlot) :=
  if received ≤ consumed then .ok window
  else
    let num_blocks := (received - consumed) / NUM_DATA
    let block_start := consumed - consumed % NUM_DATA
    recover_loop jdecode allocate get_data_size BLOB_HEADER_SIZE
      (min num_blocks 101) block_start window

end Erasure

/-- C9: an aligned erasure block with more than `NUM_CODING` missing blobs
across its data and coding slots is unrecoverable and `recover` skips it
without running the decoder and without touching any slot, and likewise a
block with no missing data blobs is skipped unchanged: on a window holding
one such block, `recover` returns the window exactly as it was, for every
decoder, every allocator and every blob layout. -/
theorem C9_recover_skips
    (jdecode : Nat → Nat → List (List Nat) → List (List Nat) → List Int →
      Int × List (List Nat))
    (allocate : Erasure.Blob) (get_data_size : List Nat → Nat)
    (blob_header_size : Nat) (window : List Erasure.WindowSlot)
    (consumed received : Nat) (hlen : 0 < window.length)
    (hrecv : consumed < received)
    (hone : (received - consumed) / Erasure.NUM_DATA = 1)
    (hskip :
      Erasure.data_missing_count window
          (consumed - consumed % Erasure.NUM_DATA) = 0 ∨
      Erasure.NUM_CODING <
        Erasure.data_missing_count window
            (consumed - consumed % Erasure.NUM_DATA) +
          Erasure.coding_missing_count window
            (consumed - consumed % Erasure.NUM_DATA)) :
    Erasure.recover jdecode allocate get_data_size blob_header_size window
      consumed received = Except.ok window := by
  have hb : Erasure.recover_block jdecode allocate get_data_size
      blob_header_size window (consumed - consumed % Erasure.NUM_DATA)
      = Except.ok window := by
    unfold Erasure.recover_block
    rw [if_pos hskip]
  have hloop : ∀ w, Erasure.recover_loop jdecode allocate get_data_size
      blob_header_size 1 (consumed - consumed % Erasure.NUM_DATA) w
      = match Erasure.recover_block jdecode allocate get_data_size
          blob_header_size w (consumed - consumed % Erasure.NUM_DATA) with
        | .error e => .error e
        | .ok w2 => .ok w2 := fun _ => rfl
  simp only [Erasure.recover]
  rw [if_neg (not_le.mpr hrecv), hone,
    Nat.min_eq_left (by norm_num : (1 : Nat) ≤ 101), hloop, hb]

/-- C9 witness: a 20-slot window of entirely empty slots holds one aligned
block with 16 missing data blobs and 4 missing coding blobs, more than
`NUM_CODING`; `recover` over the range 0..16 returns the window unchanged. -/
theorem C9_witness :
    Erasure.recover (fun _ _ d _ _ => (0, d)) ⟨[], 0, 0⟩ (fun _ => 0) 0
        (List.replicate 20 ⟨none, none⟩) 0 16
      = Except.ok (List.replicate 20 ⟨none, none⟩) :=
  C9_recover_skips (fun _ _ d _ _ => (0, d)) ⟨[], 0, 0⟩ (fun _ => 0) 0
    (List.replicate 20 ⟨none, none⟩) 0 16 (by decide) (by decide) (by decide)
    (by decide)
